import Mathlib

/-!
Verification of the concurra task scheduler (src/concurra/core.py).

The Python source is shallowly embedded: labels are either caller-chosen
strings or auto-assigned integer ids; the results registry is an
insertion-ordered association list mirroring a Python dict; the
`TaskExecutor` record-writing methods become pure functions on the
registry; the `TaskRunner` maintenance loop becomes a deterministic
step machine in which each registered task carries a script (duration
in loop ticks, and whether its work item raises) standing for the
behaviour of its thread of control.
-/

namespace Concurra

/-- A task label: a caller-supplied string or an auto-assigned integer id
(Python allows both as dict keys). -/
inductive Label where
  | str : String → Label
  | idx : Nat → Label
deriving DecidableEq

/-- Terminal statuses written into an execution record
(`_record_results` writes "Failed"/"Successful", forced termination
writes "Terminated"). -/
inductive Status where
  | Successful : Status
  | Failed : Status
  | Terminated : Status
deriving DecidableEq

/-- One populated execution record, the fields of the dict built in
`TaskExecutor._record_results` that the claims speak about (wall-clock
time fields are abstracted away). -/
structure Rec where
  status : Status
  has_failed : Bool
  error : Option String
  result : Option Nat
  trace : Option String
deriving DecidableEq

/-- The results registry: an insertion-ordered association list mirroring
a Python dict.  A value of `none` is the empty dict written by
`TaskExecutor._init_results_registry` (a still-pending record); `some r`
is a populated record. -/
abbrev Registry := List (Label × Option Rec)

/-- Python `d[l] = v`: replaces the binding of the key in place when it
is present (dict keys are unique), appends a new binding otherwise. -/
def dictSet : Registry → Label → Option Rec → Registry
  | [], l, v => [(l, v)]
  | p :: rest, l, v => if p.1 = l then (l, v) :: rest else p :: dictSet rest l v

/-- Python `d.get(l)`: `none` when the key is absent. -/
def dictGet : Registry → Label → Option (Option Rec)
  | [], _ => none
  | p :: rest, l => if p.1 = l then some p.2 else dictGet rest l

/-- Key list of the registry, in insertion order (Python `d.keys()`). -/
def dictKeys (reg : Registry) : List Label :=
  reg.map Prod.fst

namespace TaskExecutor

/-- The record dict built by `TaskExecutor._record_results`: when no
status override is given the status is "Failed" if `has_failed` else
"Successful". -/
def recordFor (result : Option Nat) (hasFailed : Bool) (errMessage : Option String)
    (traceLog : Option String) (status : Option Status) : Rec :=
  { status := status.getD (if hasFailed then .Failed else .Successful)
    has_failed := hasFailed
    error := errMessage
    result := result
    trace := traceLog }

/-- `TaskExecutor._record_results`: unconditionally overwrites the
registry entry for the executor's label with a freshly built record. -/
def record_results (reg : Registry) (l : Label) (result : Option Nat) (hasFailed : Bool)
    (errMessage : Option String) (traceLog : Option String) (status : Option Status) :
    Registry :=
  dictSet reg l (some (recordFor result hasFailed errMessage traceLog status))

/-- The "ErrorKind: text" message formatting used both by the invocation
wrapper and by forced termination. -/
def errorDetails (kind text : String) : String :=
  kind ++ ": " ++ text

/-- `TaskExecutor.update_results_on_termination`: records a forced
termination (no result, `has_failed = true`, status "Terminated"). -/
def update_results_on_termination (reg : Registry) (l : Label) (kind text : String) :
    Registry :=
  record_results reg l none true (some (errorDetails kind text)) none (some .Terminated)

/-- `TaskExecutor.is_results_updated`: Python `bool(registry.get(label))`
is true exactly when the key is present with a populated (non-empty)
record. -/
def is_results_updated (reg : Registry) (l : Label) : Bool :=
  match dictGet reg l with
  | some (some _) => true
  | _ => false

/-- Force-finalization as performed at both call sites of
`update_results_on_termination` (`TaskRunner._handle_tasks` and
`TaskRunner._terminate_tasks`): the write is guarded by
`is_results_updated`. -/
def forceFinalize (reg : Registry) (l : Label) (kind text : String) : Registry :=
  if is_results_updated reg l then reg else update_results_on_termination reg l kind text

/-- The natural completion write performed by `TaskExecutor.run` when the
work item returns `v` (its `finally` block always calls
`_record_results`). -/
def naturalSuccessWrite (reg : Registry) (l : Label) (v : Nat) : Registry :=
  record_results reg l (some v) false none none none

/-- The natural completion write performed by `TaskExecutor.run` when the
work item raises (message and traceback captured). -/
def naturalFailureWrite (reg : Registry) (l : Label) (msg trace : String) : Registry :=
  record_results reg l none true (some msg) (some trace) none

end TaskExecutor

/-- Status stored for `l`, if any: `some none` would be an empty record,
flattened here to `none` (no status yet). -/
def statusOf (reg : Registry) (l : Label) : Option Status :=
  match dictGet reg l with
  | some (some r) => some r.status
  | _ => none

/-- Python truthiness of a label value, used by `label or task_id` in
`TaskRunner.add_task` (`""` and `0` are falsy). -/
def labelTruthy : Label → Bool
  | .str s => !(s = "")
  | .idx n => !(n = 0)

/-- The effective label chosen by `add_task`: `label or task_id`, where
`task_id = len(self.tasks)`. -/
def effectiveLabel (lbl : Option Label) (taskId : Nat) : Label :=
  match lbl with
  | none => .idx taskId
  | some l => if labelTruthy l then l else .idx taskId

/-- Errors raised by `TaskRunner.add_task` in src/concurra/core.py:
`RuntimeError` after start, `TypeError` for a non-callable work item,
`ValueError` for a duplicate label. -/
inductive AddErr where
  | alreadyStarted : AddErr
  | notCallable : AddErr
  | duplicateLabel : AddErr
deriving DecidableEq

/-- The registration-time state of a `TaskRunner`: the labels of the
queued `TaskExecutor`s (in registration order), the results registry,
whether execution has begun, and the `_total_tasks` counter. -/
structure Runner where
  tasks : List Label
  registry : Registry
  hasStarted : Bool
  totalTasks : Nat
deriving DecidableEq

/-- A freshly constructed `TaskRunner`: no tasks, empty registry. -/
def Runner.init : Runner :=
  { tasks := [], registry := [], hasStarted := false, totalTasks := 0 }

/-- `TaskRunner.add_task`: rejects after start, rejects a non-callable
work item, computes the effective label, rejects a duplicate, and
otherwise queues a `TaskExecutor` (whose constructor initializes the
registry entry for the label with an empty dict). -/
def addTask (r : Runner) (isCallable : Bool) (lbl : Option Label) : Except AddErr Runner :=
  if r.hasStarted then .error .alreadyStarted
  else if !isCallable then .error .notCallable
  else
    let l := effectiveLabel lbl r.tasks.length
    if l ∈ r.tasks then .error .duplicateLabel
    else .ok { tasks := r.tasks ++ [l]
               registry := dictSet r.registry l none
               hasStarted := r.hasStarted
               totalTasks := r.totalTasks + 1 }

/-- Behaviour script of one registered task in the deterministic
simulation: its label, how many loop ticks its work item runs for, and
whether the work item raises; `value` is the result it returns on
success. -/
structure STask where
  label : Label
  duration : Nat
  taskFails : Bool
  value : Nat
deriving DecidableEq

/-- An in-flight entry of `TaskRunner.started_tasks`: the task plus the
tick at which its executor was started. -/
structure Started where
  task : STask
  startAt : Nat
deriving DecidableEq

/-- The `_state` attribute of the maintenance-loop thread
(`STATE_RUNNING` / `STATE_CLOSING` / `STATE_TERMINATED`). -/
inductive HState where
  | running : HState
  | closing : HState
  | terminated : HState
deriving DecidableEq

/-- The state of a `TaskRunner` during execution, time measured in loop
ticks: `tasks` is the pending queue `self.tasks`, `started` is
`self.started_tasks`, `registry` is `self.results_registry`. -/
structure MState where
  time : Nat
  tasks : List STask
  started : List Started
  registry : Registry
  hstate : HState
  fastFail : Bool
  maxConc : Nat
  executed : Nat
deriving DecidableEq

/-- `task.exitcode is not None`: the executor has started and its
thread of control has run for its full duration. -/
def finishedAt (t : Started) (now : Nat) : Bool :=
  t.startAt + t.task.duration ≤ now

/-- `task.has_failed`: reads `has_failed` from the registry entry,
defaulting to false. -/
def hasFailedIn (reg : Registry) (l : Label) : Bool :=
  match dictGet reg l with
  | some (some r) => r.has_failed
  | _ => false

/-- The write each execution unit's own `TaskExecutor.run` performs when
its work item finishes (success or captured exception); applied for
every in-flight unit whose duration has elapsed. -/
def writeNatural (s : MState) : MState :=
  let write := fun (reg : Registry) (t : Started) =>
    if finishedAt t s.time then
      if t.task.taskFails then
        TaskExecutor.naturalFailureWrite reg t.task.label
          (TaskExecutor.errorDetails "RuntimeError" "boom") "raised by work item"
      else
        TaskExecutor.naturalSuccessWrite reg t.task.label t.task.value
    else reg
  { s with registry := s.started.foldl write s.registry }

/-- `TaskRunner._terminate_tasks`: returns unchanged when
`started_tasks` is empty; otherwise marks the loop `STATE_TERMINATED`
and force-finalizes every entry of `started_tasks + tasks` whose record
is not yet populated (thread mode: `terminate()` itself is a no-op). -/
def terminateTasks (s : MState) : MState :=
  if s.started.isEmpty then s
  else
    let victims := (s.started.map (fun t => t.task)) ++ s.tasks
    let reg := victims.foldl
      (fun reg t => TaskExecutor.forceFinalize reg t.label "TimeoutError" "") s.registry
    { s with hstate := .terminated, registry := reg }

/-- The body of `TaskRunner._cleanup_finished_tasks`'s reversed index
loop, processing the highest index first: returns the surviving
`started_tasks`, the number of reaped tasks, the label of the failed
task that triggered the early `return False` (if any), and the
`cleanup_done` flag. -/
def cleanupAux (reg : Registry) (now : Nat) :
    List Started → List Started × Nat × Option Label × Bool
  | [] => ([], 0, none, false)
  | t :: rest =>
    match cleanupAux reg now rest with
    | (keptRest, d, some h, done) => (t :: keptRest, d, some h, done)
    | (keptRest, d, none, done) =>
      if finishedAt t now then
        if hasFailedIn reg t.task.label then (keptRest, d + 1, some t.task.label, done)
        else (keptRest, d + 1, none, true)
      else (t :: keptRest, d, none, done)

/-- `TaskRunner._cleanup_finished_tasks`: reaps finished tasks; on the
first reaped task whose record has failed it returns `false` early,
first running `_terminate_tasks` when `fast_fail` is set. -/
def cleanup (s : MState) : MState × Bool :=
  match cleanupAux s.registry s.time s.started with
  | (kept, d, some _, _) =>
    let s' := { s with started := kept, executed := s.executed + d }
    (if s.fastFail then terminateTasks s' else s', false)
  | (kept, d, none, done) =>
    ({ s with started := kept, executed := s.executed + d }, done)

/-- The admission loop of `TaskRunner._start_new_tasks`: runs
`max_concurrency - len(started_tasks)` times, each time popping the
head of the pending queue and starting it. -/
def startLoop : Nat → MState → MState
  | 0, s => s
  | n + 1, s =>
    match s.tasks with
    | [] => s
    | t :: ts =>
      startLoop n { s with tasks := ts, started := s.started ++ [⟨t, s.time⟩] }

/-- `TaskRunner._start_new_tasks`. -/
def startNewTasks (s : MState) : MState :=
  startLoop (s.maxConc - s.started.length) s

/-- The `while` condition of `TaskRunner._handle_tasks`. -/
def loopCond (s : MState) : Bool :=
  decide (s.hstate = .running) ||
    (!s.started.isEmpty && !(decide (s.hstate = .terminated)))

/-- One iteration of the `while` body of `TaskRunner._handle_tasks`:
natural completion writes become visible, finished tasks are cleaned
up, and new tasks are started only when cleanup returned true. -/
def loopBody (s : MState) : MState :=
  let s1 := writeNatural s
  match cleanup s1 with
  | (s2, ok) =>
    let s3 := if ok then startNewTasks s2 else s2
    { s3 with time := s3.time + 1 }

/-- The code after the `while` loop in `TaskRunner._handle_tasks`:
when the loop exited in `STATE_TERMINATED` with tasks still in flight,
force-finalize and drop each of them. -/
def finalizeLoop (s : MState) : MState :=
  if decide (s.hstate = .terminated) && !s.started.isEmpty then
    let reg := s.started.foldl
      (fun reg t => TaskExecutor.forceFinalize reg t.task.label "TimeoutError" "") s.registry
    { s with started := [], registry := reg }
  else s

/-- `TaskRunner._handle_tasks` driven for at most `fuel` iterations:
loops while the condition holds, then runs the post-loop finalization
(running out of fuel models a `join` timeout). -/
def runLoop : Nat → MState → MState
  | 0, s => s
  | n + 1, s => if loopCond s then runLoop n (loopBody s) else finalizeLoop s

/-- The registry produced by the `add_task` calls for the given scripts:
each call initializes the entry of its label with an empty dict. -/
def initRegistry (specs : List STask) : Registry :=
  specs.foldl (fun reg t => dictSet reg t.label none) []

/-- The state of a `TaskRunner` right after construction and `add_task`
calls for the given scripts. -/
def initState (fastFail : Bool) (maxConc : Nat) (specs : List STask) : MState :=
  { time := 0
    tasks := specs
    started := []
    registry := initRegistry specs
    hstate := .running
    fastFail := fastFail
    maxConc := maxConc
    executed := 0 }

/-- `TaskRunner.execute_in_background`: the initial admission pass, with
the maintenance loop spawned in `STATE_RUNNING`. -/
def executeInBackground (s : MState) : MState :=
  startNewTasks s

/-- `TaskRunner.get_background_results`: set the loop state to
`STATE_CLOSING`, join the loop (drive it to exit, bounded by fuel), run
`_terminate_tasks`, and snapshot the registry. -/
def getBackgroundResults (fuel : Nat) (s : MState) : MState × Registry :=
  let s2 := runLoop fuel { s with hstate := .closing }
  let s3 := terminateTasks s2
  (s3, s3.registry)

/-- `TaskRunner.run`: `execute_in_background` then
`get_background_results`. -/
def runSim (fastFail : Bool) (maxConc fuel : Nat) (specs : List STask) :
    MState × Registry :=
  getBackgroundResults fuel (executeInBackground (initState fastFail maxConc specs))

/-- `TaskRunner.abort`: `_terminate_tasks` then a snapshot of the
registry (`verify` only logs). -/
def abortSim (s : MState) : MState × Registry :=
  match terminateTasks s with
  | s' => (s', s'.registry)

/-! ### Registry lemmas -/

theorem dictGet_dictSet_self (reg : Registry) (l : Label) (v : Option Rec) :
    dictGet (dictSet reg l v) l = some v := by
  induction reg with
  | nil => simp [dictSet, dictGet]
  | cons p rest ih =>
    by_cases hp : p.1 = l
    · simp [dictSet, dictGet, hp]
    · simp [dictSet, dictGet, hp, ih]

theorem dictKeys_cons (p : Label × Option Rec) (rest : Registry) :
    dictKeys (p :: rest) = p.1 :: dictKeys rest := rfl

theorem dictGet_dictSet_ne (reg : Registry) (l l' : Label) (v : Option Rec)
    (h : l ≠ l') : dictGet (dictSet reg l v) l' = dictGet reg l' := by
  induction reg with
  | nil =>
    simp only [dictSet, dictGet]
    rw [if_neg h]
  | cons p rest ih =>
    by_cases hp : p.1 = l
    · simp only [dictSet, if_pos hp, dictGet]
      rw [if_neg h, if_neg (fun hc => h (hp.symm.trans hc))]
    · simp only [dictSet, if_neg hp, dictGet]
      by_cases hp' : p.1 = l'
      · rw [if_pos hp', if_pos hp']
      · rw [if_neg hp', if_neg hp', ih]

theorem dictKeys_dictSet_of_mem (reg : Registry) (l : Label) (v : Option Rec)
    (h : l ∈ dictKeys reg) : dictKeys (dictSet reg l v) = dictKeys reg := by
  induction reg with
  | nil => simp [dictKeys] at h
  | cons p rest ih =>
    rw [dictKeys_cons] at h
    by_cases hp : p.1 = l
    · simp [dictSet, hp, dictKeys_cons]
    · have h' : l ∈ dictKeys rest := by
        rcases List.mem_cons.mp h with h1 | h1
        · exact absurd h1.symm hp
        · exact h1
      rw [dictSet, if_neg hp, dictKeys_cons, dictKeys_cons, ih h']

theorem dictKeys_dictSet_of_not_mem (reg : Registry) (l : Label) (v : Option Rec)
    (h : l ∉ dictKeys reg) : dictKeys (dictSet reg l v) = dictKeys reg ++ [l] := by
  induction reg with
  | nil => simp [dictSet, dictKeys]
  | cons p rest ih =>
    rw [dictKeys_cons] at h
    have hp : p.1 ≠ l := fun hc => h (hc ▸ List.mem_cons_self p.1 (dictKeys rest))
    have h' : l ∉ dictKeys rest := fun hc => h (List.mem_cons_of_mem _ hc)
    rw [dictSet, if_neg hp, dictKeys_cons, dictKeys_cons, ih h']
    rfl

theorem mem_dictKeys_of_dictGet (reg : Registry) (l : Label) (v : Option Rec)
    (h : dictGet reg l = some v) : l ∈ dictKeys reg := by
  induction reg with
  | nil => simp [dictGet] at h
  | cons p rest ih =>
    by_cases hp : p.1 = l
    · rw [dictKeys_cons]
      exact hp ▸ List.mem_cons_self p.1 (dictKeys rest)
    · simp only [dictGet, hp, if_false] at h
      rw [dictKeys_cons]
      exact List.mem_cons_of_mem _ (ih h)

namespace TaskExecutor

theorem statusOf_record_results (reg : Registry) (l : Label) (result : Option Nat)
    (hasFailed : Bool) (e t : Option String) (st : Option Status) :
    statusOf (record_results reg l result hasFailed e t st) l =
      some (st.getD (if hasFailed then .Failed else .Successful)) := by
  simp [statusOf, record_results, recordFor, dictGet_dictSet_self]

theorem is_results_updated_record_results (reg : Registry) (l : Label) (result : Option Nat)
    (hasFailed : Bool) (e t : Option String) (st : Option Status) :
    is_results_updated (record_results reg l result hasFailed e t st) l = true := by
  simp [is_results_updated, record_results, dictGet_dictSet_self]

end TaskExecutor

/-! ### C4: a force-finalized Terminated record versus the unit's own
completion write -/

/-- Claim C4 counterexample: the claim says a record force-finalized as
`Terminated` remains `Terminated` and the unit's eventual natural
completion never overwrites it.  On the code this is false:
`TaskExecutor._record_results` writes unconditionally, so at the
concrete label `"t"` — pending record, then
`update_results_on_termination`, then the unit's natural success write
(`TaskExecutor.run`'s `finally` block) — the finalized `Terminated`
record is overwritten with a `Successful` one. -/
theorem terminated_record_overwritten :
    statusOf (TaskExecutor.update_results_on_termination
        [(Label.str "t", none)] (Label.str "t") "TimeoutError" "") (Label.str "t") =
      some Status.Terminated ∧
    statusOf (TaskExecutor.naturalSuccessWrite
        (TaskExecutor.update_results_on_termination
          [(Label.str "t", none)] (Label.str "t") "TimeoutError" "")
        (Label.str "t") 42) (Label.str "t") = some Status.Successful ∧
    some Status.Successful ≠ some Status.Terminated := by
  refine ⟨by decide, by decide, by decide⟩

/-- Claim C4 (amended): force-finalization writes a `Terminated` record, and
the call sites guard it so an already-populated record is not
force-overwritten; but the record does not necessarily remain
`Terminated` — if the abandoned unit later completes naturally, its
completion write (which is unconditional) overwrites the record with
the `Successful` or `Failed` outcome. -/
theorem forced_termination_not_write_once (reg : Registry) (l : Label)
    (k t : String) (v : Nat) (msg tr : String) :
    statusOf (TaskExecutor.update_results_on_termination reg l k t) l =
      some Status.Terminated ∧
    (TaskExecutor.is_results_updated reg l = true →
      TaskExecutor.forceFinalize reg l k t = reg) ∧
    statusOf (TaskExecutor.naturalSuccessWrite
        (TaskExecutor.update_results_on_termination reg l k t) l v) l =
      some Status.Successful ∧
    statusOf (TaskExecutor.naturalFailureWrite
        (TaskExecutor.update_results_on_termination reg l k t) l msg tr) l =
      some Status.Failed := by
  refine ⟨?_, ?_, ?_, ?_⟩
  · simp [TaskExecutor.update_results_on_termination, TaskExecutor.statusOf_record_results]
  · intro h
    simp [TaskExecutor.forceFinalize, h]
  · simp [TaskExecutor.naturalSuccessWrite, TaskExecutor.statusOf_record_results]
  · simp [TaskExecutor.naturalFailureWrite, TaskExecutor.statusOf_record_results]

/-- Claim C4 amended witness at a concrete populated registry. -/
theorem forced_termination_not_write_once_witness :
    TaskExecutor.is_results_updated
        [(Label.str "t", some ⟨Status.Successful, false, none, some 1, none⟩)]
        (Label.str "t") = true ∧
    TaskExecutor.forceFinalize
        [(Label.str "t", some ⟨Status.Successful, false, none, some 1, none⟩)]
        (Label.str "t") "TimeoutError" "" =
      [(Label.str "t", some ⟨Status.Successful, false, none, some 1, none⟩)] :=
  ⟨by decide,
    (forced_termination_not_write_once
      [(Label.str "t", some ⟨Status.Successful, false, none, some 1, none⟩)]
      (Label.str "t") "TimeoutError" "" 0 "" "").2.1 (by decide)⟩

/-! ### C8, C9: registration-time behaviour of `add_task` -/

/-- Claim C8: `add_task` raises an error exactly when the run has begun
(already-started), the work item is not callable, or the effective
label is a duplicate — in that order of precedence — and otherwise
registers the task and raises nothing; the error cases store nothing. -/
theorem add_task_error_cases (r : Runner) (c : Bool) (lbl : Option Label) :
    ((∃ e, addTask r c lbl = Except.error e) ↔
      (r.hasStarted = true ∨ c = false ∨ effectiveLabel lbl r.tasks.length ∈ r.tasks)) ∧
    (r.hasStarted = true → addTask r c lbl = Except.error AddErr.alreadyStarted) ∧
    (r.hasStarted = false → c = false → addTask r c lbl = Except.error AddErr.notCallable) ∧
    (r.hasStarted = false → c = true → effectiveLabel lbl r.tasks.length ∈ r.tasks →
      addTask r c lbl = Except.error AddErr.duplicateLabel) ∧
    (r.hasStarted = false → c = true → effectiveLabel lbl r.tasks.length ∉ r.tasks →
      addTask r c lbl = Except.ok
        { tasks := r.tasks ++ [effectiveLabel lbl r.tasks.length]
          registry := dictSet r.registry (effectiveLabel lbl r.tasks.length) none
          hasStarted := false
          totalTasks := r.totalTasks + 1 }) := by
  unfold addTask
  by_cases hs : r.hasStarted
  · simp [hs]
  · by_cases hc : c
    · by_cases hd : effectiveLabel lbl r.tasks.length ∈ r.tasks
      · simp [hs, hc, hd]
      · simp [hs, hc, hd]
    · simp [hs, hc]

/-- Claim C8 witness: each of the three error cases and the success case at a
concrete runner. -/
theorem add_task_error_cases_witness :
    addTask { tasks := [], registry := [], hasStarted := true, totalTasks := 0 }
        true none = Except.error AddErr.alreadyStarted ∧
    addTask Runner.init false none = Except.error AddErr.notCallable ∧
    addTask { tasks := [Label.str "dup"], registry := [(Label.str "dup", none)],
              hasStarted := false, totalTasks := 1 }
        true (some (Label.str "dup")) = Except.error AddErr.duplicateLabel ∧
    addTask Runner.init true (some (Label.str "a")) =
      Except.ok { tasks := [Label.str "a"], registry := [(Label.str "a", none)],
                  hasStarted := false, totalTasks := 1 } :=
  ⟨(add_task_error_cases _ true none).2.1 (by decide),
   (add_task_error_cases Runner.init false none).2.2.1 (by decide) (by decide),
   (add_task_error_cases _ true (some (Label.str "dup"))).2.2.2.1
     (by decide) (by decide) (by decide),
   (add_task_error_cases Runner.init true (some (Label.str "a"))).2.2.2.2
     (by decide) (by decide) (by decide)⟩

/-- Claim C9: a task registered without an explicit label is keyed by its
0-based registration index, the number of tasks registered before it,
and its (empty) record appears in the registry under that key. -/
theorem default_label_is_registration_index (r : Runner)
    (h1 : r.hasStarted = false)
    (h2 : Label.idx r.tasks.length ∉ r.tasks) :
    addTask r true none = Except.ok
      { tasks := r.tasks ++ [Label.idx r.tasks.length]
        registry := dictSet r.registry (Label.idx r.tasks.length) none
        hasStarted := false
        totalTasks := r.totalTasks + 1 } ∧
    (∀ r', addTask r true none = Except.ok r' →
      dictGet r'.registry (Label.idx r.tasks.length) = some none) := by
  have hmain : addTask r true none = Except.ok
      { tasks := r.tasks ++ [Label.idx r.tasks.length]
        registry := dictSet r.registry (Label.idx r.tasks.length) none
        hasStarted := false
        totalTasks := r.totalTasks + 1 } := by
    unfold addTask
    simp [h1, effectiveLabel, h2]
  refine ⟨hmain, fun r' hr' => ?_⟩
  rw [hmain] at hr'
  cases hr'
  exact dictGet_dictSet_self r.registry (Label.idx r.tasks.length) none

/-- Claim C9 witness: with one task already registered, an unlabeled task is
keyed by index 1 and its empty record appears under that key. -/
theorem default_label_is_registration_index_witness :
    dictGet (dictSet [(Label.str "a", none)] (Label.idx 1) none) (Label.idx 1) =
      some none :=
  (default_label_is_registration_index
    { tasks := [Label.str "a"], registry := [(Label.str "a", none)],
      hasStarted := false, totalTasks := 1 } (by decide) (by decide)).2 _
    (default_label_is_registration_index
      { tasks := [Label.str "a"], registry := [(Label.str "a", none)],
        hasStarted := false, totalTasks := 1 } (by decide) (by decide)).1

/-! ### C5, C7: the empty-`started_tasks` early return of
`_terminate_tasks` leaves unfinished labels unfinalized -/

/-- Claim C5: evaluation of the code at the failing input `fast_fail = true`,
`max_concurrency = 1`, tasks `F` (fails immediately) then `S` (long,
never started).  The claim requires every non-finished label to end
`Terminated` or `Failed` and no record to remain unpopulated; instead
the final results keep label `S` with an empty, never-populated record
(`dictGet` yields `some none`, `statusOf` yields `none`), because
`_terminate_tasks` returns early when `started_tasks` is empty and the
loop then never starts nor finalizes the pending task. -/
theorem fast_fail_leaves_pending_record :
    hasFailedIn (runSim true 1 10
        [⟨Label.str "F", 0, true, 0⟩, ⟨Label.str "S", 100, false, 7⟩]).2
      (Label.str "F") = true ∧
    dictGet (runSim true 1 10
        [⟨Label.str "F", 0, true, 0⟩, ⟨Label.str "S", 100, false, 7⟩]).2
      (Label.str "S") = some none ∧
    statusOf (runSim true 1 10
        [⟨Label.str "F", 0, true, 0⟩, ⟨Label.str "S", 100, false, 7⟩]).2
      (Label.str "S") = none := by
  refine ⟨by decide, by decide, by decide⟩

/-- Claim C7: evaluation of the code at the failing input: a running scheduler
(`max_concurrency = 1`, task `F` failed and was reaped, task `S` still
pending, maintenance loop still in `STATE_RUNNING`) on which `abort()`
is called.  The claim requires the returned snapshot to hold a terminal
status for every registered label; instead `_terminate_tasks` returns
early because `started_tasks` is empty, so the never-started label `S`
stays an empty record with no status at all. -/
theorem abort_leaves_pending_record :
    (loopBody (loopBody (executeInBackground (initState false 1
        [⟨Label.str "F", 0, true, 0⟩, ⟨Label.str "S", 100, false, 7⟩])))).hstate =
      HState.running ∧
    (loopBody (loopBody (executeInBackground (initState false 1
        [⟨Label.str "F", 0, true, 0⟩, ⟨Label.str "S", 100, false, 7⟩])))).tasks ≠ [] ∧
    statusOf (abortSim (loopBody (loopBody (executeInBackground (initState false 1
        [⟨Label.str "F", 0, true, 0⟩, ⟨Label.str "S", 100, false, 7⟩]))))).2
      (Label.str "F") = some Status.Failed ∧
    dictGet (abortSim (loopBody (loopBody (executeInBackground (initState false 1
        [⟨Label.str "F", 0, true, 0⟩, ⟨Label.str "S", 100, false, 7⟩]))))).2
      (Label.str "S") = some none := by
  refine ⟨by decide, by decide, by decide, by decide⟩

/-! ### C3: the concurrency cap -/

theorem startLoop_maxConc (n : Nat) (s : MState) :
    (startLoop n s).maxConc = s.maxConc := by
  induction n generalizing s with
  | zero => rfl
  | succ n ih =>
    rw [startLoop]
    cases s.tasks with
    | nil => rfl
    | cons t ts => exact ih _

theorem startLoop_started_length (n : Nat) (s : MState) :
    (startLoop n s).started.length ≤ s.started.length + n := by
  induction n generalizing s with
  | zero => simp [startLoop]
  | succ n ih =>
    cases htasks : s.tasks with
    | nil =>
      simp only [startLoop, htasks]
      omega
    | cons t ts =>
      simp only [startLoop, htasks]
      have := ih { s with tasks := ts, started := s.started ++ [⟨t, s.time⟩] }
      simp only [List.length_append, List.length_cons, List.length_nil] at this
      omega

theorem startNewTasks_cap (s : MState) (h : s.started.length ≤ s.maxConc) :
    (startNewTasks s).started.length ≤ s.maxConc := by
  have := startLoop_started_length (s.maxConc - s.started.length) s
  unfold startNewTasks
  omega

theorem startNewTasks_maxConc (s : MState) :
    (startNewTasks s).maxConc = s.maxConc :=
  startLoop_maxConc _ s

theorem cleanupAux_length (reg : Registry) (now : Nat) (L : List Started) :
    (cleanupAux reg now L).1.length ≤ L.length := by
  induction L with
  | nil => simp [cleanupAux]
  | cons t rest ih =>
    rcases hrec : cleanupAux reg now rest with ⟨kept, d, hit, done⟩
    rw [hrec] at ih
    simp only [cleanupAux, hrec]
    cases hit with
    | some h => simpa using Nat.succ_le_succ ih
    | none =>
      by_cases hf : finishedAt t now
      · by_cases hh : hasFailedIn reg t.task.label
        · simp only [hf, hh, if_true]
          simpa using Nat.le_succ_of_le ih
        · simp only [hf, hh, if_true, if_false]
          simpa using Nat.le_succ_of_le ih
      · simp only [hf, if_false]
        simpa using Nat.succ_le_succ ih

theorem terminateTasks_started (s : MState) :
    (terminateTasks s).started = s.started := by
  unfold terminateTasks
  by_cases h : s.started.isEmpty <;> simp [h]

theorem terminateTasks_maxConc (s : MState) :
    (terminateTasks s).maxConc = s.maxConc := by
  unfold terminateTasks
  by_cases h : s.started.isEmpty <;> simp [h]

theorem cleanup_started_length (s : MState) :
    (cleanup s).1.started.length ≤ s.started.length := by
  rcases hrec : cleanupAux s.registry s.time s.started with ⟨kept, d, hit, done⟩
  have hlen : kept.length ≤ s.started.length := by
    have := cleanupAux_length s.registry s.time s.started
    rw [hrec] at this
    exact this
  unfold cleanup
  rw [hrec]
  cases hit with
  | some h =>
    cases hff : s.fastFail with
    | true => simpa [hff, terminateTasks_started] using hlen
    | false => simpa [hff] using hlen
  | none => simpa using hlen

theorem cleanup_maxConc (s : MState) :
    (cleanup s).1.maxConc = s.maxConc := by
  rcases hrec : cleanupAux s.registry s.time s.started with ⟨kept, d, hit, done⟩
  unfold cleanup
  rw [hrec]
  cases hit with
  | some h =>
    cases hff : s.fastFail with
    | true => simp [hff, terminateTasks_maxConc]
    | false => simp [hff]
  | none => simp

theorem writeNatural_started (s : MState) :
    (writeNatural s).started = s.started := rfl

theorem writeNatural_maxConc (s : MState) :
    (writeNatural s).maxConc = s.maxConc := rfl

theorem loopBody_started_cap (s : MState) (h : s.started.length ≤ s.maxConc) :
    (loopBody s).started.length ≤ s.maxConc := by
  rcases hrec : cleanup (writeNatural s) with ⟨s2, ok⟩
  have h2 : s2.started.length ≤ s.maxConc := by
    have := cleanup_started_length (writeNatural s)
    rw [hrec] at this
    simp only [writeNatural_started] at this
    omega
  have hmc : s2.maxConc = s.maxConc := by
    have := cleanup_maxConc (writeNatural s)
    rw [hrec] at this
    simpa [writeNatural_maxConc] using this
  unfold loopBody
  simp only [hrec]
  by_cases hok : ok = true
  · have := startNewTasks_cap s2 (by omega)
    simp only [hok, if_true]
    simpa [hmc] using this
  · simp only [hok, if_false]
    simpa using h2

theorem loopBody_maxConc (s : MState) :
    (loopBody s).maxConc = s.maxConc := by
  rcases hrec : cleanup (writeNatural s) with ⟨s2, ok⟩
  have hmc : s2.maxConc = s.maxConc := by
    have := cleanup_maxConc (writeNatural s)
    rw [hrec] at this
    simpa [writeNatural_maxConc] using this
  unfold loopBody
  simp only [hrec]
  by_cases hok : ok = true
  · simpa [hok, startNewTasks_maxConc] using hmc
  · simpa [hok] using hmc

theorem finalizeLoop_started_cap (s : MState) (h : s.started.length ≤ s.maxConc) :
    (finalizeLoop s).started.length ≤ s.maxConc := by
  unfold finalizeLoop
  by_cases hc : (decide (s.hstate = HState.terminated) && !s.started.isEmpty) = true
  · simp [hc]
  · simpa [hc] using h

theorem finalizeLoop_maxConc (s : MState) :
    (finalizeLoop s).maxConc = s.maxConc := by
  unfold finalizeLoop
  by_cases hc : (decide (s.hstate = HState.terminated) && !s.started.isEmpty) = true
  · simp [hc]
  · simp [hc]

theorem runLoop_cap (fuel : Nat) (s : MState) (h : s.started.length ≤ s.maxConc) :
    (runLoop fuel s).started.length ≤ s.maxConc ∧
      (runLoop fuel s).maxConc = s.maxConc := by
  induction fuel generalizing s with
  | zero => exact ⟨h, rfl⟩
  | succ n ih =>
    rw [runLoop]
    by_cases hc : loopCond s
    · rw [if_pos hc]
      have hb := loopBody_started_cap s h
      have hbm := loopBody_maxConc s
      have := ih (loopBody s) (by omega)
      constructor
      · omega
      · rw [this.2, hbm]
    · rw [if_neg hc]
      exact ⟨finalizeLoop_started_cap s h, finalizeLoop_maxConc s⟩

/-- Claim C3: the number of simultaneously in-flight execution units never
exceeds `max_concurrency`: the bound is established by the initial
admission pass of `execute_in_background` and preserved by
`_start_new_tasks`, by every iteration of the maintenance-loop body, by
the loop run as a whole, and by `_terminate_tasks`. -/
theorem concurrency_cap (ff : Bool) (mc fuel : Nat) (specs : List STask) (s : MState)
    (h : s.started.length ≤ s.maxConc) :
    (executeInBackground (initState ff mc specs)).started.length ≤ mc ∧
    (startNewTasks s).started.length ≤ s.maxConc ∧
    (loopBody s).started.length ≤ s.maxConc ∧
    (runLoop fuel s).started.length ≤ s.maxConc ∧
    (terminateTasks s).started.length ≤ s.maxConc := by
  refine ⟨?_, startNewTasks_cap s h, loopBody_started_cap s h,
    (runLoop_cap fuel s h).1, ?_⟩
  · have : (initState ff mc specs).started.length ≤ (initState ff mc specs).maxConc := by
      simp [initState]
    simpa [initState] using startNewTasks_cap (initState ff mc specs) this
  · simpa [terminateTasks_started] using h

/-- Three one-tick tasks, used to exercise the concurrency cap. -/
def capDemoSpecs : List STask :=
  [⟨Label.str "A", 1, false, 0⟩, ⟨Label.str "B", 1, false, 0⟩,
   ⟨Label.str "C", 1, false, 0⟩]

/-- A concrete mid-run state with cap 2 and one task in flight. -/
def capDemoState : MState :=
  { time := 1
    tasks := [⟨Label.str "C", 1, false, 0⟩]
    started := [⟨⟨Label.str "A", 1, false, 0⟩, 0⟩]
    registry := []
    hstate := HState.running
    fastFail := false
    maxConc := 2
    executed := 0 }

/-- Claim C3 witness: a concrete mid-run state with one slot free under a cap
of 2, and a concrete initial pass. -/
theorem concurrency_cap_witness :
    (executeInBackground (initState false 2 capDemoSpecs)).started.length ≤ 2 ∧
    (startNewTasks capDemoState).started.length ≤ 2 :=
  ⟨(concurrency_cap false 2 1 capDemoSpecs capDemoState (by decide)).1,
   (concurrency_cap false 2 1 capDemoSpecs capDemoState (by decide)).2.1⟩

/-! ### C6: force-finalization semantics at its call sites -/

/-- Claim C6: force-finalizing a unit on termination (the guarded
`is_results_updated` / `update_results_on_termination` pattern used at
both call sites) writes a record with status `Terminated`,
`has_failed = true`, error `"<ErrorKind>: <text>"` and no result value
exactly when no populated record exists yet for the label, leaves the
registry unchanged when one does, and is idempotent. -/
theorem force_finalize_semantics (reg : Registry) (l : Label) (k t k' t' : String) :
    (TaskExecutor.is_results_updated reg l = false →
      dictGet (TaskExecutor.forceFinalize reg l k t) l =
        some (some { status := Status.Terminated, has_failed := true,
                     error := some (k ++ ": " ++ t), result := none, trace := none })) ∧
    (TaskExecutor.is_results_updated reg l = true →
      TaskExecutor.forceFinalize reg l k t = reg) ∧
    TaskExecutor.forceFinalize (TaskExecutor.forceFinalize reg l k t) l k' t' =
      TaskExecutor.forceFinalize reg l k t := by
  refine ⟨?_, ?_, ?_⟩
  · intro h
    simp [TaskExecutor.forceFinalize, h, TaskExecutor.update_results_on_termination,
      TaskExecutor.record_results, TaskExecutor.recordFor, TaskExecutor.errorDetails,
      dictGet_dictSet_self]
  · intro h
    simp [TaskExecutor.forceFinalize, h]
  · by_cases h : TaskExecutor.is_results_updated reg l = true
    · simp [TaskExecutor.forceFinalize, h]
    · have h2 : TaskExecutor.is_results_updated
          (TaskExecutor.forceFinalize reg l k t) l = true := by
        simp only [TaskExecutor.forceFinalize, h, if_false]
        simp [TaskExecutor.update_results_on_termination,
          TaskExecutor.is_results_updated_record_results]
      conv_lhs => rw [TaskExecutor.forceFinalize, if_pos h2]

/-- Claim C6 witness: both branches at concrete registries. -/
theorem force_finalize_semantics_witness :
    dictGet (TaskExecutor.forceFinalize [(Label.str "x", none)] (Label.str "x")
        "TimeoutError" "") (Label.str "x") =
      some (some { status := Status.Terminated, has_failed := true,
                   error := some ("TimeoutError" ++ ": " ++ ""), result := none,
                   trace := none }) ∧
    TaskExecutor.forceFinalize
        [(Label.str "x", some ⟨Status.Failed, true, some "e", none, none⟩)]
        (Label.str "x") "TimeoutError" "" =
      [(Label.str "x", some ⟨Status.Failed, true, some "e", none, none⟩)] :=
  ⟨(force_finalize_semantics [(Label.str "x", none)] (Label.str "x")
      "TimeoutError" "" "E" "f").1 (by decide),
    (force_finalize_semantics [(Label.str "x", some ⟨Status.Failed, true, some "e", none, none⟩)]
      (Label.str "x") "TimeoutError" "" "E" "f").2.1 (by decide)⟩

/-! ### C10: the registry key set is the set of registered labels -/

theorem mem_dictKeys_dictSet_self (reg : Registry) (l : Label) (v : Option Rec) :
    l ∈ dictKeys (dictSet reg l v) :=
  mem_dictKeys_of_dictGet _ _ v (dictGet_dictSet_self reg l v)

theorem mem_dictKeys_dictSet_of_mem (reg : Registry) (l l' : Label) (v : Option Rec)
    (h : l ∈ dictKeys reg) : l ∈ dictKeys (dictSet reg l' v) := by
  by_cases hl : l' ∈ dictKeys reg
  · rw [dictKeys_dictSet_of_mem reg l' v hl]
    exact h
  · rw [dictKeys_dictSet_of_not_mem reg l' v hl]
    exact List.mem_append_left _ h

theorem foldl_dictSet_keys_eq (specs : List STask) (reg0 : Registry)
    (hd : ∀ t ∈ specs, t.label ∉ dictKeys reg0)
    (hnd : (specs.map (fun t => t.label)).Nodup) :
    dictKeys (specs.foldl (fun reg t => dictSet reg t.label none) reg0) =
      dictKeys reg0 ++ specs.map (fun t => t.label) := by
  induction specs generalizing reg0 with
  | nil => simp
  | cons t rest ih =>
    simp only [List.map_cons, List.nodup_cons] at hnd
    have hkeys : dictKeys (dictSet reg0 t.label none) = dictKeys reg0 ++ [t.label] :=
      dictKeys_dictSet_of_not_mem reg0 t.label none
        (hd t (List.mem_cons_self t rest))
    have hd' : ∀ u ∈ rest, u.label ∉ dictKeys (dictSet reg0 t.label none) := by
      intro u hu hmem
      rw [hkeys] at hmem
      rcases List.mem_append.mp hmem with h1 | h1
      · exact hd u (List.mem_cons_of_mem t hu) h1
      · have : u.label = t.label := List.mem_singleton.mp h1
        exact hnd.1 (this ▸ List.mem_map_of_mem (fun t => t.label) hu)
    rw [List.foldl_cons, ih (dictSet reg0 t.label none) hd' hnd.2, hkeys]
    simp

theorem initRegistry_keys (specs : List STask)
    (hnd : (specs.map (fun t => t.label)).Nodup) :
    dictKeys (initRegistry specs) = specs.map (fun t => t.label) := by
  have := foldl_dictSet_keys_eq specs [] (by intro t _ h; simp [dictKeys] at h) hnd
  simpa [initRegistry, dictKeys] using this

theorem foldl_keys_eq {α : Type} (f : Registry → α → Registry) :
    ∀ (L : List α) (reg : Registry) (K : List Label), dictKeys reg = K →
      (∀ reg' a, a ∈ L → dictKeys reg' = K → dictKeys (f reg' a) = K) →
      dictKeys (L.foldl f reg) = K
  | [], _, _, hreg, _ => hreg
  | a :: rest, reg, K, hreg, hf => by
    rw [List.foldl_cons]
    exact foldl_keys_eq f rest (f reg a) K (hf reg a (List.mem_cons_self a rest) hreg)
      (fun reg' b hb hk => hf reg' b (List.mem_cons_of_mem a hb) hk)

/-- Every label queued or in flight has a (possibly empty) registry
entry; this holds from registration on and is preserved by the loop. -/
def coverInv (s : MState) : Prop :=
  (∀ t ∈ s.tasks, t.label ∈ dictKeys s.registry) ∧
  (∀ t ∈ s.started, t.task.label ∈ dictKeys s.registry)

theorem forceFinalize_keys_of_mem (reg : Registry) (l : Label) (k t : String)
    (h : l ∈ dictKeys reg) :
    dictKeys (TaskExecutor.forceFinalize reg l k t) = dictKeys reg := by
  unfold TaskExecutor.forceFinalize
  by_cases hu : TaskExecutor.is_results_updated reg l = true
  · rw [if_pos hu]
  · rw [if_neg hu]
    exact dictKeys_dictSet_of_mem reg l _ h

theorem writeNatural_keys (s : MState) (h : ∀ t ∈ s.started, t.task.label ∈ dictKeys s.registry) :
    dictKeys (writeNatural s).registry = dictKeys s.registry := by
  unfold writeNatural
  refine foldl_keys_eq _ s.started s.registry (dictKeys s.registry) rfl ?_
  intro reg' t ht hk
  have hmem : t.task.label ∈ dictKeys reg' := by
    rw [hk]
    exact h t ht
  cases hf : finishedAt t s.time with
  | false => simpa [hf] using hk
  | true =>
    cases hfl : t.task.taskFails with
    | true =>
      simp [hf, hfl, TaskExecutor.naturalFailureWrite, TaskExecutor.record_results,
        dictKeys_dictSet_of_mem reg' t.task.label _ hmem, hk]
    | false =>
      simp [hf, hfl, TaskExecutor.naturalSuccessWrite, TaskExecutor.record_results,
        dictKeys_dictSet_of_mem reg' t.task.label _ hmem, hk]

theorem terminateTasks_keys (s : MState) (h : coverInv s) :
    dictKeys (terminateTasks s).registry = dictKeys s.registry := by
  unfold terminateTasks
  by_cases he : s.started.isEmpty
  · rw [if_pos he]
  · rw [if_neg he]
    refine foldl_keys_eq _ _ s.registry (dictKeys s.registry) rfl ?_
    intro reg' t ht hk
    rcases List.mem_append.mp ht with h1 | h1
    · rcases List.mem_map.mp h1 with ⟨u, hu, hul⟩
      exact forceFinalize_keys_of_mem reg' t.label _ _
        (hk ▸ hul ▸ h.2 u hu) |>.trans hk
    · exact (forceFinalize_keys_of_mem reg' t.label _ _ (hk ▸ h.1 t h1)).trans hk

theorem finalizeLoop_keys (s : MState) (h : ∀ t ∈ s.started, t.task.label ∈ dictKeys s.registry) :
    dictKeys (finalizeLoop s).registry = dictKeys s.registry := by
  unfold finalizeLoop
  by_cases hc : (decide (s.hstate = HState.terminated) && !s.started.isEmpty) = true
  · rw [if_pos hc]
    refine foldl_keys_eq _ s.started s.registry (dictKeys s.registry) rfl ?_
    intro reg' t ht hk
    exact (forceFinalize_keys_of_mem reg' t.task.label _ _ (hk ▸ h t ht)).trans hk
  · rw [if_neg hc]

theorem cleanupAux_subset (reg : Registry) (now : Nat) (L : List Started) :
    ∀ x ∈ (cleanupAux reg now L).1, x ∈ L := by
  induction L with
  | nil => simp [cleanupAux]
  | cons t rest ih =>
    rcases hrec : cleanupAux reg now rest with ⟨kept, d, hit, done⟩
    rw [hrec] at ih
    simp only [cleanupAux, hrec]
    cases hit with
    | some h =>
      intro x hx
      rcases List.mem_cons.mp hx with h1 | h1
      · exact h1 ▸ List.mem_cons_self t rest
      · exact List.mem_cons_of_mem t (ih x h1)
    | none =>
      by_cases hf : finishedAt t now
      · by_cases hh : hasFailedIn reg t.task.label
        · simp only [hf, hh, if_true]
          exact fun x hx => List.mem_cons_of_mem t (ih x hx)
        · simp only [hf, hh, if_true, if_false]
          exact fun x hx => List.mem_cons_of_mem t (ih x hx)
      · simp only [hf, if_false]
        intro x hx
        rcases List.mem_cons.mp hx with h1 | h1
        · exact h1 ▸ List.mem_cons_self t rest
        · exact List.mem_cons_of_mem t (ih x h1)

theorem terminateTasks_tasks (s : MState) : (terminateTasks s).tasks = s.tasks := by
  unfold terminateTasks
  by_cases h : s.started.isEmpty <;> simp [h]

theorem terminateTasks_cover (s : MState) (h : coverInv s) :
    dictKeys (terminateTasks s).registry = dictKeys s.registry ∧
      coverInv (terminateTasks s) := by
  have hk := terminateTasks_keys s h
  refine ⟨hk, ?_, ?_⟩
  · intro t ht
    rw [terminateTasks_tasks] at ht
    rw [hk]
    exact h.1 t ht
  · intro t ht
    rw [terminateTasks_started] at ht
    rw [hk]
    exact h.2 t ht

theorem cleanup_cover (s : MState) (h : coverInv s) :
    dictKeys (cleanup s).1.registry = dictKeys s.registry ∧ coverInv (cleanup s).1 := by
  rcases hrec : cleanupAux s.registry s.time s.started with ⟨kept, d, hit, done⟩
  have hsub : ∀ x ∈ kept, x ∈ s.started := by
    have := cleanupAux_subset s.registry s.time s.started
    rw [hrec] at this
    exact this
  have hcov : coverInv { s with started := kept, executed := s.executed + d } :=
    ⟨h.1, fun t ht => h.2 t (hsub t ht)⟩
  unfold cleanup
  rw [hrec]
  cases hit with
  | some hl =>
    by_cases hff : s.fastFail = true
    · simp only [hff, if_true]
      exact terminateTasks_cover _ hcov
    · simp [hff]
      exact hcov
  | none =>
    simp only
    exact ⟨trivial, hcov⟩

theorem startLoop_cover (n : Nat) (s : MState) (h : coverInv s) :
    (startLoop n s).registry = s.registry ∧ coverInv (startLoop n s) := by
  induction n generalizing s with
  | zero => exact ⟨rfl, h⟩
  | succ n ih =>
    cases htasks : s.tasks with
    | nil =>
      simp only [startLoop, htasks]
      exact ⟨trivial, h⟩
    | cons t ts =>
      simp only [startLoop, htasks]
      refine ih _ ⟨?_, ?_⟩
      · intro u hu
        exact h.1 u (htasks ▸ List.mem_cons_of_mem t hu)
      · intro u hu
        rcases List.mem_append.mp hu with h1 | h1
        · exact h.2 u h1
        · have : u = ⟨t, s.time⟩ := List.mem_singleton.mp h1
          subst this
          exact h.1 t (htasks ▸ List.mem_cons_self t ts)

theorem startNewTasks_cover (s : MState) (h : coverInv s) :
    (startNewTasks s).registry = s.registry ∧ coverInv (startNewTasks s) :=
  startLoop_cover _ s h

theorem writeNatural_cover (s : MState) (h : coverInv s) :
    dictKeys (writeNatural s).registry = dictKeys s.registry ∧ coverInv (writeNatural s) := by
  have hk := writeNatural_keys s h.2
  refine ⟨hk, ?_, ?_⟩
  · intro t ht
    rw [hk]
    exact h.1 t ht
  · intro t ht
    rw [hk]
    exact h.2 t ht

theorem loopBody_cover (s : MState) (h : coverInv s) :
    dictKeys (loopBody s).registry = dictKeys s.registry ∧ coverInv (loopBody s) := by
  obtain ⟨hw, hcw⟩ := writeNatural_cover s h
  obtain ⟨hc, hcc⟩ := cleanup_cover (writeNatural s) hcw
  rcases hrec : cleanup (writeNatural s) with ⟨s2, ok⟩
  rw [hrec] at hc hcc
  unfold loopBody
  simp only [hrec]
  by_cases hok : ok = true
  · obtain ⟨hsn, hcsn⟩ := startNewTasks_cover s2 hcc
    simp only [hok, if_true]
    refine ⟨?_, ?_, ?_⟩
    · rw [hsn, hc, hw]
    · intro t ht
      exact hcsn.1 t ht
    · intro t ht
      exact hcsn.2 t ht
  · simp only [hok, if_false]
    exact ⟨hc.trans hw, hcc.1, hcc.2⟩

theorem runLoop_cover (fuel : Nat) (s : MState) (h : coverInv s) :
    dictKeys (runLoop fuel s).registry = dictKeys s.registry ∧ coverInv (runLoop fuel s) := by
  induction fuel generalizing s with
  | zero => exact ⟨rfl, h⟩
  | succ n ih =>
    rw [runLoop]
    by_cases hc : loopCond s
    · rw [if_pos hc]
      obtain ⟨hb, hcb⟩ := loopBody_cover s h
      obtain ⟨hr, hcr⟩ := ih (loopBody s) hcb
      exact ⟨hr.trans hb, hcr⟩
    · rw [if_neg hc]
      have hk := finalizeLoop_keys s h.2
      have htasks : (finalizeLoop s).tasks = s.tasks := by
        unfold finalizeLoop
        by_cases hcc : (decide (s.hstate = HState.terminated) && !s.started.isEmpty) = true
        · rw [if_pos hcc]
        · rw [if_neg hcc]
      have hstarted : (finalizeLoop s).started = [] ∨ (finalizeLoop s).started = s.started := by
        unfold finalizeLoop
        by_cases hcc : (decide (s.hstate = HState.terminated) && !s.started.isEmpty) = true
        · rw [if_pos hcc]
          exact Or.inl rfl
        · rw [if_neg hcc]
          exact Or.inr rfl
      refine ⟨hk, ?_, ?_⟩
      · intro t ht
        rw [htasks] at ht
        rw [hk]
        exact h.1 t ht
      · intro t ht
        rw [hk]
        rcases hstarted with hs | hs
        · rw [hs] at ht
          cases ht
        · rw [hs] at ht
          exact h.2 t ht

theorem foldl_dictSet_keys_mono (specs : List STask) (reg0 : Registry) (l : Label)
    (h : l ∈ dictKeys reg0) :
    l ∈ dictKeys (specs.foldl (fun reg t => dictSet reg t.label none) reg0) := by
  induction specs generalizing reg0 with
  | nil => exact h
  | cons t rest ih => exact ih _ (mem_dictKeys_dictSet_of_mem _ _ _ _ h)

theorem mem_foldl_dictSet_keys :
    ∀ (specs : List STask) (reg0 : Registry) (t : STask), t ∈ specs →
      t.label ∈ dictKeys (specs.foldl (fun reg u => dictSet reg u.label none) reg0)
  | [], _, t, h => absurd h (List.not_mem_nil t)
  | u :: rest, reg0, t, h => by
    rw [List.foldl_cons]
    rcases List.mem_cons.mp h with h1 | h1
    · subst h1
      exact foldl_dictSet_keys_mono rest _ _ (mem_dictKeys_dictSet_self _ _ _)
    · exact mem_foldl_dictSet_keys rest _ t h1

theorem initState_cover (ff : Bool) (mc : Nat) (specs : List STask) :
    coverInv (initState ff mc specs) := by
  constructor
  · intro t ht
    exact mem_foldl_dictSet_keys specs [] t ht
  · intro t ht
    cases ht

/-- `loopBody` applied `n` times: an arbitrary mid-run state of the
maintenance loop while it stays in `STATE_RUNNING`. -/
def iterBody : Nat → MState → MState
  | 0, s => s
  | n + 1, s => iterBody n (loopBody s)

theorem iterBody_cover (n : Nat) (s : MState) (h : coverInv s) :
    dictKeys (iterBody n s).registry = dictKeys s.registry ∧
      coverInv (iterBody n s) := by
  induction n generalizing s with
  | zero => exact ⟨rfl, h⟩
  | succ n ih =>
    obtain ⟨hb, hcb⟩ := loopBody_cover s h
    obtain ⟨hr, hcr⟩ := ih (loopBody s) hcb
    exact ⟨hr.trans hb, hcr⟩

theorem getBackgroundResults_keys (fuel : Nat) (s : MState) (h : coverInv s) :
    dictKeys (getBackgroundResults fuel s).2 = dictKeys s.registry := by
  have h1 : coverInv { s with hstate := HState.closing } := ⟨h.1, h.2⟩
  obtain ⟨hr, hcr⟩ := runLoop_cover fuel { s with hstate := HState.closing } h1
  obtain ⟨ht, _⟩ := terminateTasks_cover _ hcr
  exact ht.trans hr

/-- Claim C10: from the moment `add_task` succeeds for a label, the results
registry contains an entry for that label; consequently the key set of
every results mapping returned to the caller is exactly the list of
registered labels — through a full `run`, and through an `abort` issued
after the initial admission pass and any number of maintenance-loop
iterations — even for tasks that never ran. -/
theorem results_keys_are_registered_labels (r : Runner) (c : Bool) (lbl : Option Label)
    (hkeys : dictKeys r.registry = r.tasks)
    (ff : Bool) (mc fuel n : Nat) (specs : List STask)
    (hnd : (specs.map (fun t => t.label)).Nodup) :
    (∀ r', addTask r c lbl = Except.ok r' →
      dictKeys r'.registry = r'.tasks ∧
      effectiveLabel lbl r.tasks.length ∈ dictKeys r'.registry) ∧
    dictKeys (runSim ff mc fuel specs).2 = specs.map (fun t => t.label) ∧
    dictKeys (abortSim (iterBody n (executeInBackground (initState ff mc specs)))).2 =
      specs.map (fun t => t.label) := by
  have hinitkeys : dictKeys (initState ff mc specs).registry =
      specs.map (fun t => t.label) := initRegistry_keys specs hnd
  have hinitcov := initState_cover ff mc specs
  obtain ⟨hsn, hsncov⟩ := startNewTasks_cover (initState ff mc specs) hinitcov
  refine ⟨?_, ?_, ?_⟩
  · intro r' hr'
    unfold addTask at hr'
    by_cases h1 : r.hasStarted
    · rw [if_pos h1] at hr'
      cases hr'
    · rw [if_neg h1] at hr'
      by_cases h2 : !c
      · rw [if_pos h2] at hr'
        cases hr'
      · rw [if_neg h2] at hr'
        by_cases h3 : effectiveLabel lbl r.tasks.length ∈ r.tasks
        · simp only [h3, if_true] at hr'
          cases hr'
        · simp only [h3, if_false] at hr'
          cases hr'
          constructor
          · have hnot : effectiveLabel lbl r.tasks.length ∉ dictKeys r.registry := by
              rw [hkeys]
              exact h3
            rw [dictKeys_dictSet_of_not_mem r.registry _ none hnot, hkeys]
          · exact mem_dictKeys_dictSet_self r.registry _ none
  · unfold runSim executeInBackground
    rw [getBackgroundResults_keys fuel _ hsncov, hsn, hinitkeys]
  · obtain ⟨hik, hicov⟩ :=
      iterBody_cover n (executeInBackground (initState ff mc specs)) hsncov
    obtain ⟨hterm, _⟩ := terminateTasks_cover _ hicov
    show dictKeys (terminateTasks (iterBody n (executeInBackground
      (initState ff mc specs)))).registry = specs.map (fun t => t.label)
    rw [hterm, hik]
    show dictKeys (startNewTasks (initState ff mc specs)).registry =
      specs.map (fun t => t.label)
    rw [hsn, hinitkeys]

/-- Claim C10 witness at the concrete two-task input of the fast-fail
scenario: the snapshot of a full run keys exactly the two registered
labels, the never-run one included. -/
theorem results_keys_are_registered_labels_witness :
    dictKeys (runSim true 1 10
        [⟨Label.str "F", 0, true, 0⟩, ⟨Label.str "S", 100, false, 7⟩]).2 =
      [Label.str "F", Label.str "S"] :=
  (results_keys_are_registered_labels Runner.init true none (by decide)
    true 1 10 0 [⟨Label.str "F", 0, true, 0⟩, ⟨Label.str "S", 100, false, 7⟩]
    (by decide)).2.1

/-! ### C1, C2: the dependency-graph extension

The `depends_on` feature exercised by src/test_dependent_tasks.py is not
implemented in src/concurra/core.py; only its tests are in the
repository.  Its behaviour is therefore modelled from spec sections 4.1
and 4.4, constrained by the test surface. -/

/-- Modelled from the spec: the dependency-graph node set of §3/§4.1
(`{label, depends_on}` entries, append-only), absent from
src/concurra/core.py. -/
abbrev Graph := List (Label × List Label)

/-- Modelled from the spec: the `depends_on` set stored for a label by
the missing Dependency Graph (empty when the label is unregistered). -/
def depsOf (g : Graph) (l : Label) : List Label :=
  match g.find? (fun p => p.1 = l) with
  | some p => p.2
  | none => []

/-- Modelled from the spec: reachability through already-registered
edges, fuel-bounded depth-first search used by the missing cycle check
("whether `label` is reachable from any node in `depends_on`"). -/
def reachesFuel (g : Graph) : Nat → Label → Label → Bool
  | 0, a, b => decide (a = b)
  | n + 1, a, b => decide (a = b) || (depsOf g a).any (fun d => reachesFuel g n d b)

/-- Modelled from the spec: reachability with enough fuel for any simple
path through the registered edges. -/
def reaches (g : Graph) (a b : Label) : Bool :=
  reachesFuel g (g.length + 1) a b

/-- Modelled from the spec: the registration errors of the missing
dependency validation — `SelfDependencyError` (test message "cannot
depend on itself") and `CycleError` (test message "Circular dependency
detected").  The spec's `UnknownDependencyError` is omitted because
src/test_dependent_tasks.py registers a dependency on a not-yet-known
label successfully (`test_two_way_circular_dependency` adds "A" with
`depends_on` containing the unregistered "B"). -/
inductive DepErr where
  | selfDependency : DepErr
  | circularDependency : DepErr
deriving DecidableEq

/-- Modelled from the spec: `DependencyGraph.add` of §4.1 — fails on a
self-dependency, fails when the new edges close a cycle (the new label
reachable from one of its dependencies), and otherwise stores the
node. -/
def graphAdd (g : Graph) (l : Label) (deps : List Label) : Except DepErr Graph :=
  if l ∈ deps then .error .selfDependency
  else if deps.any (fun d => reaches g d l) then .error .circularDependency
  else .ok (g ++ [(l, deps)])

/-- Modelled from the spec: errors of the dependency-extended
`add_task` — the base errors of src/concurra/core.py plus the
dependency-validation errors propagated from the graph. -/
inductive DAddErr where
  | base : AddErr → DAddErr
  | dep : DepErr → DAddErr
deriving DecidableEq

/-- Modelled from the spec: the registration state of the
dependency-extended `TaskRunner` — the base runner plus its Dependency
Graph. -/
structure DRunner where
  runner : Runner
  graph : Graph

/-- Modelled from the spec: the dependency-extended `add_task(work,
label, depends_on)` of §4.4 — the base checks of
`TaskRunner.add_task`, then edge validation delegated to the Dependency
Graph with its errors propagated; on success the task is queued and the
node stored. -/
def addTaskDep (r : DRunner) (isCallable : Bool) (lbl : Option Label)
    (deps : List Label) : Except DAddErr DRunner :=
  if r.runner.hasStarted then .error (.base .alreadyStarted)
  else if !isCallable then .error (.base .notCallable)
  else
    let l := effectiveLabel lbl r.runner.tasks.length
    if l ∈ r.runner.tasks then .error (.base .duplicateLabel)
    else
      match graphAdd r.graph l deps with
      | .error e => .error (.dep e)
      | .ok g' =>
        .ok { runner := { tasks := r.runner.tasks ++ [l]
                          registry := dictSet r.runner.registry l none
                          hasStarted := r.runner.hasStarted
                          totalTasks := r.runner.totalTasks + 1 }
              graph := g' }

/-- Claim C1: on a scheduler that accepts the call at all (not yet started,
callable work item, fresh label), `add_task` with a `depends_on` set
containing the task's own label fails with the self-dependency error
and with a `depends_on` edge closing a cycle through already-registered
edges fails with the cycle error; and once execution has started every
`add_task` call fails with the already-started error, so a dependency
error can only ever be raised at registration time, before any
execution starts.  Registration errors leave nothing stored. -/
theorem dependency_errors_at_registration (r : DRunner) (c : Bool)
    (lbl : Option Label) (deps : List Label) :
    (r.runner.hasStarted = false → c = true →
      effectiveLabel lbl r.runner.tasks.length ∉ r.runner.tasks →
      effectiveLabel lbl r.runner.tasks.length ∈ deps →
      addTaskDep r c lbl deps = Except.error (DAddErr.dep DepErr.selfDependency)) ∧
    (r.runner.hasStarted = false → c = true →
      effectiveLabel lbl r.runner.tasks.length ∉ r.runner.tasks →
      effectiveLabel lbl r.runner.tasks.length ∉ deps →
      (∃ d ∈ deps, reaches r.graph d (effectiveLabel lbl r.runner.tasks.length) = true) →
      addTaskDep r c lbl deps = Except.error (DAddErr.dep DepErr.circularDependency)) ∧
    (r.runner.hasStarted = true →
      addTaskDep r c lbl deps = Except.error (DAddErr.base AddErr.alreadyStarted)) := by
  refine ⟨?_, ?_, ?_⟩
  · intro h1 h2 h3 h4
    unfold addTaskDep
    rw [if_neg (by simp [h1]), if_neg (by simp [h2])]
    simp only [h3, if_false]
    unfold graphAdd
    rw [if_pos h4]
  · intro h1 h2 h3 h4 h5
    unfold addTaskDep
    rw [if_neg (by simp [h1]), if_neg (by simp [h2])]
    simp only [h3, if_false]
    unfold graphAdd
    rw [if_neg h4]
    have hany : (deps.any (fun d => reaches r.graph d
        (effectiveLabel lbl r.runner.tasks.length))) = true := by
      rcases h5 with ⟨d, hd, hr⟩
      exact List.any_eq_true.mpr ⟨d, hd, hr⟩
    rw [if_pos hany]
  · intro h1
    unfold addTaskDep
    rw [if_pos h1]

/-- Claim C1 witness: the two test scenarios — `add_task(label="A",
depends_on=["A"])` on a fresh scheduler fails with the self-dependency
error, and after registering `A` depending on `B`, `add_task(label="B",
depends_on=["A"])` fails with the cycle error; both before any
execution starts. -/
theorem dependency_errors_at_registration_witness :
    addTaskDep { runner := Runner.init, graph := [] } true
        (some (Label.str "A")) [Label.str "A"] =
      Except.error (DAddErr.dep DepErr.selfDependency) ∧
    addTaskDep
        { runner := { tasks := [Label.str "A"], registry := [(Label.str "A", none)],
                      hasStarted := false, totalTasks := 1 }
          graph := [(Label.str "A", [Label.str "B"])] } true
        (some (Label.str "B")) [Label.str "A"] =
      Except.error (DAddErr.dep DepErr.circularDependency) :=
  ⟨(dependency_errors_at_registration { runner := Runner.init, graph := [] } true
      (some (Label.str "A")) [Label.str "A"]).1
      (by decide) (by decide) (by decide) (by decide),
   (dependency_errors_at_registration
      { runner := { tasks := [Label.str "A"], registry := [(Label.str "A", none)],
                    hasStarted := false, totalTasks := 1 }
        graph := [(Label.str "A", [Label.str "B"])] } true
      (some (Label.str "B")) [Label.str "A"]).2.1
      (by decide) (by decide) (by decide) (by decide)
      ⟨Label.str "A", by decide, by decide⟩⟩

/-- Modelled from the spec: the per-iteration completion behaviour of
the in-flight units of the missing dependency-aware maintenance loop —
for each label, `none` while its unit is still running, `some true`
when it finished successfully this iteration, `some false` when it
failed. -/
abbrev Oracle := Label → Option Bool

/-- Modelled from the spec: the scheduler state of §3 for the missing
dependency-aware loop — the disjoint label sets `pending` (FIFO),
`in_flight`, `succeeded`, `failed`, `terminated`, plus the recorded
status of each label. -/
structure DState where
  pending : List Label
  inFlight : List Label
  succeeded : List Label
  failed : List Label
  terminated : List Label
  status : Label → Option Status

/-- Labels whose execution unit has been started (in flight or already
reaped into `succeeded`/`failed`). -/
def startedSet (s : DState) : List Label :=
  s.inFlight ++ s.succeeded ++ s.failed

/-- All labels tracked by the scheduler state. -/
def allLabels (s : DState) : List Label :=
  s.pending ++ s.inFlight ++ s.succeeded ++ s.failed ++ s.terminated

/-- Modelled from the spec: step 1 (Reap) of the §4.4 maintenance loop —
every in-flight label whose unit has stopped moves into `succeeded` or
`failed` per its outcome, and its record status is written. -/
def dreap (o : Oracle) (s : DState) : DState :=
  let fin := s.inFlight.filter (fun l => (o l).isSome)
  let newStatus := fun l =>
    if l ∈ fin then
      if o l = some true then some Status.Successful else some Status.Failed
    else s.status l
  { s with
    inFlight := s.inFlight.filter (fun l => (o l).isNone)
    succeeded := s.succeeded ++ fin.filter (fun l => o l = some true)
    failed := s.failed ++ fin.filter (fun l => o l = some false)
    status := newStatus }

/-- Modelled from the spec: a pending label is skippable when some
dependency is in `failed ∪ terminated`. -/
def skippable (g : Graph) (s : DState) (l : Label) : Bool :=
  (depsOf g l).any (fun d => decide (d ∈ s.failed) || decide (d ∈ s.terminated))

/-- Modelled from the spec: step 2 (Classify newly skippable) of the
§4.4 maintenance loop — each pending label with a dependency in
`failed ∪ terminated` moves directly to `terminated`, its record
finalized as `Terminated`, without ever being started. -/
def dclassify (g : Graph) (s : DState) : DState :=
  let skip := s.pending.filter (fun l => skippable g s l)
  let newStatus := fun l =>
    if l ∈ skip then some Status.Terminated else s.status l
  { s with
    pending := s.pending.filter (fun l => !skippable g s l)
    terminated := s.terminated ++ skip
    status := newStatus }

/-- Modelled from the spec: `is_ready` of §4.1 — every dependency
already in `succeeded`. -/
def isReady (g : Graph) (s : DState) (l : Label) : Bool :=
  (depsOf g l).all (fun d => decide (d ∈ s.succeeded))

/-- Modelled from the spec: step 3 (Admit) of the §4.4 maintenance
loop — while there is spare capacity, the earliest-registered ready
pending label is started and moved to `in_flight`; fuel-bounded by the
pending count. -/
def admitLoop (g : Graph) (mc : Nat) : Nat → DState → DState
  | 0, s => s
  | n + 1, s =>
    if s.inFlight.length < mc then
      match s.pending.find? (fun l => isReady g s l) with
      | none => s
      | some l =>
        admitLoop g mc n
          { s with pending := s.pending.erase l, inFlight := s.inFlight ++ [l] }
    else s

/-- Modelled from the spec: the Admit pass over the whole pending
queue. -/
def admitPass (g : Graph) (mc : Nat) (s : DState) : DState :=
  admitLoop g mc s.pending.length s

/-- Modelled from the spec: one iteration of the §4.4 maintenance loop —
reap, classify newly skippable, admit. -/
def dstep (g : Graph) (mc : Nat) (o : Oracle) (s : DState) : DState :=
  admitPass g mc (dclassify g (dreap o s))

/-- Modelled from the spec: the scheduler state right after `execute`
is triggered — every registered label pending in registration order,
nothing started, all records empty. -/
def dinit (g : Graph) : DState :=
  { pending := g.map Prod.fst
    inFlight := []
    succeeded := []
    failed := []
    terminated := []
    status := fun _ => none }

/-- Modelled from the spec: the dependency-aware maintenance loop run
for one iteration per oracle entry. -/
def drun (g : Graph) (mc : Nat) (os : List Oracle) : DState :=
  os.foldl (fun s o => dstep g mc o s) (dinit g)

/-! ### C2 invariants: dependency order, skip propagation -/

theorem count_filter_pos (L : List Label) (p : Label → Bool) (a : Label)
    (h : p a = true) : (L.filter p).count a = L.count a :=
  List.count_filter h

theorem count_filter_neg (L : List Label) (p : Label → Bool) (a : Label)
    (h : p a = false) : (L.filter p).count a = 0 := by
  rw [List.count_eq_zero]
  intro hmem
  have hp := (List.mem_filter.mp hmem).2
  rw [h] at hp
  cases hp

theorem dreap_perm (o : Oracle) (s : DState) :
    List.Perm (allLabels (dreap o s)) (allLabels s) := by
  rw [List.perm_iff_count]
  intro a
  simp only [allLabels, dreap, List.count_append, List.filter_filter]
  rcases ho : o a with _ | b
  · have h1 : (s.inFlight.filter (fun l => (o l).isNone)).count a = s.inFlight.count a :=
      count_filter_pos _ _ a (by simp [ho])
    have h2 : (s.inFlight.filter
        (fun l => decide (o l = some true) && (o l).isSome)).count a = 0 :=
      count_filter_neg _ _ a (by simp [ho])
    have h3 : (s.inFlight.filter
        (fun l => decide (o l = some false) && (o l).isSome)).count a = 0 :=
      count_filter_neg _ _ a (by simp [ho])
    rw [h1, h2, h3]
    omega
  · cases b
    · have h1 : (s.inFlight.filter (fun l => (o l).isNone)).count a = 0 :=
        count_filter_neg _ _ a (by simp [ho])
      have h2 : (s.inFlight.filter
          (fun l => decide (o l = some true) && (o l).isSome)).count a = 0 :=
        count_filter_neg _ _ a (by simp [ho])
      have h3 : (s.inFlight.filter
          (fun l => decide (o l = some false) && (o l).isSome)).count a =
            s.inFlight.count a :=
        count_filter_pos _ _ a (by simp [ho])
      rw [h1, h2, h3]
      omega
    · have h1 : (s.inFlight.filter (fun l => (o l).isNone)).count a = 0 :=
        count_filter_neg _ _ a (by simp [ho])
      have h2 : (s.inFlight.filter
          (fun l => decide (o l = some true) && (o l).isSome)).count a =
            s.inFlight.count a :=
        count_filter_pos _ _ a (by simp [ho])
      have h3 : (s.inFlight.filter
          (fun l => decide (o l = some false) && (o l).isSome)).count a = 0 :=
        count_filter_neg _ _ a (by simp [ho])
      rw [h1, h2, h3]
      omega

theorem dclassify_perm (g : Graph) (s : DState) :
    List.Perm (allLabels (dclassify g s)) (allLabels s) := by
  rw [List.perm_iff_count]
  intro a
  simp only [allLabels, dclassify, List.count_append]
  cases hsk : skippable g s a with
  | true =>
    rw [count_filter_neg _ _ a (by simp [hsk]), count_filter_pos _ _ a hsk]
    omega
  | false =>
    rw [count_filter_pos _ _ a (by simp [hsk]), count_filter_neg _ _ a hsk]
    omega

theorem admitLoop_perm (g : Graph) (mc : Nat) :
    ∀ (n : Nat) (s : DState),
      List.Perm (allLabels (admitLoop g mc n s)) (allLabels s)
  | 0, s => List.Perm.refl _
  | n + 1, s => by
    rw [admitLoop]
    by_cases hcap : s.inFlight.length < mc
    · rw [if_pos hcap]
      cases hfind : s.pending.find? (fun l => isReady g s l) with
      | none => exact List.Perm.refl _
      | some l =>
        have hmem : l ∈ s.pending := List.mem_of_find?_eq_some hfind
        have hstep : List.Perm
            (allLabels { s with pending := s.pending.erase l,
                                inFlight := s.inFlight ++ [l] })
            (allLabels s) := by
          rw [List.perm_iff_count]
          intro a
          simp only [allLabels, List.count_append]
          rw [List.count_erase, List.count_singleton]
          by_cases hal : l = a
          · subst hal
            have hpos : 0 < s.pending.count l := List.count_pos_iff.mpr hmem
            simp
            omega
          · have : (l == a) = false := by
              simp [hal]
            rw [this]
            simp
        exact (admitLoop_perm g mc n _).trans hstep
    · rw [if_neg hcap]

theorem dstep_perm (g : Graph) (mc : Nat) (o : Oracle) (s : DState) :
    List.Perm (allLabels (dstep g mc o s)) (allLabels s) :=
  ((admitLoop_perm g mc _ _).trans (dclassify_perm g (dreap o s))).trans
    (dreap_perm o s)

/-- The scheduler-state invariant maintained by the dependency-aware
loop: the five sets partition the registered labels, every started
label had all its dependencies in `succeeded`, and every terminated
label's record reads `Terminated`. -/
structure DInv (g : Graph) (s : DState) : Prop where
  perm : List.Perm (allLabels s) (g.map Prod.fst)
  deps_ok : ∀ l ∈ startedSet s, ∀ d ∈ depsOf g l, d ∈ s.succeeded
  term_status : ∀ l ∈ s.terminated, s.status l = some Status.Terminated

theorem nodup_parts_count {s : DState} (h : (allLabels s).Nodup) (a : Label) :
    s.pending.count a + s.inFlight.count a + s.succeeded.count a +
      s.failed.count a + s.terminated.count a ≤ 1 := by
  have := List.nodup_iff_count_le_one.mp h a
  simp only [allLabels, List.count_append] at this
  omega

theorem startedSet_cases {s : DState} {x : Label} (h : x ∈ startedSet s) :
    x ∈ s.inFlight ∨ x ∈ s.succeeded ∨ x ∈ s.failed := by
  rcases List.mem_append.mp h with h1 | h1
  · rcases List.mem_append.mp h1 with h2 | h2
    · exact Or.inl h2
    · exact Or.inr (Or.inl h2)
  · exact Or.inr (Or.inr h1)

theorem mem_startedSet_inFlight {s : DState} {x : Label} (h : x ∈ s.inFlight) :
    x ∈ startedSet s := List.mem_append_left _ (List.mem_append_left _ h)

theorem mem_startedSet_succeeded {s : DState} {x : Label} (h : x ∈ s.succeeded) :
    x ∈ startedSet s := List.mem_append_left _ (List.mem_append_right _ h)

theorem mem_startedSet_failed {s : DState} {x : Label} (h : x ∈ s.failed) :
    x ∈ startedSet s := List.mem_append_right _ h

theorem dreap_started_sub (o : Oracle) (s : DState) :
    ∀ l ∈ startedSet (dreap o s), l ∈ startedSet s := by
  intro l hl
  rcases startedSet_cases hl with h1 | h1 | h1
  · exact mem_startedSet_inFlight (List.mem_of_mem_filter h1)
  · rcases List.mem_append.mp h1 with h2 | h2
    · exact mem_startedSet_succeeded h2
    · exact mem_startedSet_inFlight
        (List.mem_of_mem_filter (List.mem_of_mem_filter h2))
  · rcases List.mem_append.mp h1 with h2 | h2
    · exact mem_startedSet_failed h2
    · exact mem_startedSet_inFlight
        (List.mem_of_mem_filter (List.mem_of_mem_filter h2))

theorem dreap_succeeded_sup (o : Oracle) (s : DState) :
    ∀ d ∈ s.succeeded, d ∈ (dreap o s).succeeded := by
  intro d hd
  exact List.mem_append_left _ hd

theorem dreap_deps_ok (g : Graph) (o : Oracle) (s : DState)
    (h : ∀ l ∈ startedSet s, ∀ d ∈ depsOf g l, d ∈ s.succeeded) :
    ∀ l ∈ startedSet (dreap o s), ∀ d ∈ depsOf g l, d ∈ (dreap o s).succeeded :=
  fun l hl d hd => dreap_succeeded_sup o s d (h l (dreap_started_sub o s l hl) d hd)

theorem dreap_term_status (o : Oracle) (s : DState)
    (hnd : (allLabels s).Nodup)
    (h : ∀ l ∈ s.terminated, s.status l = some Status.Terminated) :
    ∀ l ∈ (dreap o s).terminated, (dreap o s).status l = some Status.Terminated := by
  intro l hl
  have hterm : l ∈ s.terminated := hl
  have hnotfin : l ∉ s.inFlight.filter (fun x => (o x).isSome) := by
    intro hf
    have hIF : l ∈ s.inFlight := List.mem_of_mem_filter hf
    have h1 := List.count_pos_iff.mpr hIF
    have h2 := List.count_pos_iff.mpr hterm
    have := nodup_parts_count hnd l
    omega
  show (if l ∈ s.inFlight.filter (fun x => (o x).isSome) then _ else s.status l) =
    some Status.Terminated
  rw [if_neg hnotfin]
  exact h l hterm

theorem dclassify_term_status (g : Graph) (s : DState)
    (h : ∀ l ∈ s.terminated, s.status l = some Status.Terminated) :
    ∀ l ∈ (dclassify g s).terminated,
      (dclassify g s).status l = some Status.Terminated := by
  intro l hl
  show (if l ∈ s.pending.filter (fun x => skippable g s x) then some Status.Terminated
    else s.status l) = some Status.Terminated
  by_cases hsk : l ∈ s.pending.filter (fun x => skippable g s x)
  · rw [if_pos hsk]
  · rw [if_neg hsk]
    have hl' : l ∈ s.terminated ++ s.pending.filter (fun x => skippable g s x) := hl
    rcases List.mem_append.mp hl' with h1 | h1
    · exact h l h1
    · exact absurd h1 hsk

theorem admitLoop_status (g : Graph) (mc : Nat) :
    ∀ (n : Nat) (s : DState), (admitLoop g mc n s).status = s.status
  | 0, _ => rfl
  | n + 1, s => by
    rw [admitLoop]
    by_cases hcap : s.inFlight.length < mc
    · rw [if_pos hcap]
      cases hfind : s.pending.find? (fun l => isReady g s l) with
      | none => rfl
      | some l => exact admitLoop_status g mc n _
    · rw [if_neg hcap]

theorem admitLoop_terminated (g : Graph) (mc : Nat) :
    ∀ (n : Nat) (s : DState), (admitLoop g mc n s).terminated = s.terminated
  | 0, _ => rfl
  | n + 1, s => by
    rw [admitLoop]
    by_cases hcap : s.inFlight.length < mc
    · rw [if_pos hcap]
      cases hfind : s.pending.find? (fun l => isReady g s l) with
      | none => rfl
      | some l => exact admitLoop_terminated g mc n _
    · rw [if_neg hcap]

theorem admitLoop_succeeded (g : Graph) (mc : Nat) :
    ∀ (n : Nat) (s : DState), (admitLoop g mc n s).succeeded = s.succeeded
  | 0, _ => rfl
  | n + 1, s => by
    rw [admitLoop]
    by_cases hcap : s.inFlight.length < mc
    · rw [if_pos hcap]
      cases hfind : s.pending.find? (fun l => isReady g s l) with
      | none => rfl
      | some l => exact admitLoop_succeeded g mc n _
    · rw [if_neg hcap]

theorem admitLoop_deps_ok (g : Graph) (mc : Nat) :
    ∀ (n : Nat) (s : DState),
      (∀ l ∈ startedSet s, ∀ d ∈ depsOf g l, d ∈ s.succeeded) →
      ∀ l ∈ startedSet (admitLoop g mc n s), ∀ d ∈ depsOf g l,
        d ∈ (admitLoop g mc n s).succeeded
  | 0, s, h => h
  | n + 1, s, h => by
    rw [admitLoop]
    by_cases hcap : s.inFlight.length < mc
    · rw [if_pos hcap]
      cases hfind : s.pending.find? (fun l => isReady g s l) with
      | none => exact h
      | some l =>
        have hready : isReady g s l = true := List.find?_some hfind
        refine admitLoop_deps_ok g mc n _ ?_
        intro x hx d hd
        show d ∈ s.succeeded
        rcases startedSet_cases hx with h1 | h1 | h1
        · rcases List.mem_append.mp h1 with h2 | h2
          · exact h x (mem_startedSet_inFlight h2) d hd
          · have hxl : x = l := List.mem_singleton.mp h2
            subst hxl
            have := List.all_eq_true.mp hready d hd
            simpa using this
        · exact h x (mem_startedSet_succeeded h1) d hd
        · exact h x (mem_startedSet_failed h1) d hd
    · rw [if_neg hcap]
      exact h

theorem admitLoop_started_sup (g : Graph) (mc : Nat) :
    ∀ (n : Nat) (s : DState) (l : Label), l ∈ startedSet s →
      l ∈ startedSet (admitLoop g mc n s)
  | 0, _, _, h => h
  | n + 1, s, l, h => by
    rw [admitLoop]
    by_cases hcap : s.inFlight.length < mc
    · rw [if_pos hcap]
      cases hfind : s.pending.find? (fun x => isReady g s x) with
      | none => exact h
      | some x =>
        refine admitLoop_started_sup g mc n _ l ?_
        rcases startedSet_cases h with h1 | h1 | h1
        · exact mem_startedSet_inFlight (List.mem_append_left _ h1)
        · exact mem_startedSet_succeeded h1
        · exact mem_startedSet_failed h1
    · rw [if_neg hcap]
      exact h

theorem dreap_started_sup (o : Oracle) (s : DState) :
    ∀ l ∈ startedSet s, l ∈ startedSet (dreap o s) := by
  intro l hl
  rcases startedSet_cases hl with h1 | h1 | h1
  · rcases ho : o l with _ | b
    · exact mem_startedSet_inFlight (List.mem_filter.mpr ⟨h1, by simp [ho]⟩)
    · cases b
      · refine mem_startedSet_failed (List.mem_append_right _ ?_)
        exact List.mem_filter.mpr ⟨List.mem_filter.mpr ⟨h1, by simp [ho]⟩, by simp [ho]⟩
      · refine mem_startedSet_succeeded (List.mem_append_right _ ?_)
        exact List.mem_filter.mpr ⟨List.mem_filter.mpr ⟨h1, by simp [ho]⟩, by simp [ho]⟩
  · exact mem_startedSet_succeeded (List.mem_append_left _ h1)
  · exact mem_startedSet_failed (List.mem_append_left _ h1)

theorem dstep_started_sup (g : Graph) (mc : Nat) (o : Oracle) (s : DState) :
    ∀ l ∈ startedSet s, l ∈ startedSet (dstep g mc o s) := by
  intro l hl
  exact admitLoop_started_sup g mc _ _ l (dreap_started_sup o s l hl)

theorem dstep_inv (g : Graph) (mc : Nat) (o : Oracle) (s : DState)
    (hnd : (g.map Prod.fst).Nodup) (h : DInv g s) : DInv g (dstep g mc o s) := by
  have hndall : (allLabels s).Nodup := h.perm.nodup_iff.mpr hnd
  have hperm1 : List.Perm (allLabels (dreap o s)) (g.map Prod.fst) :=
    (dreap_perm o s).trans h.perm
  have hdeps1 := dreap_deps_ok g o s h.deps_ok
  have hterm1 := dreap_term_status o s hndall h.term_status
  have hperm2 : List.Perm (allLabels (dclassify g (dreap o s))) (g.map Prod.fst) :=
    (dclassify_perm g (dreap o s)).trans hperm1
  have hdeps2 : ∀ l ∈ startedSet (dclassify g (dreap o s)), ∀ d ∈ depsOf g l,
      d ∈ (dclassify g (dreap o s)).succeeded :=
    fun l hl d hd => hdeps1 l hl d hd
  have hterm2 := dclassify_term_status g (dreap o s) hterm1
  constructor
  · exact (admitLoop_perm g mc _ _).trans hperm2
  · exact admitLoop_deps_ok g mc _ _ hdeps2
  · intro l hl
    show (admitLoop g mc _ _).status l = some Status.Terminated
    rw [admitLoop_status]
    apply hterm2
    have hl' : l ∈ (admitLoop g mc (dclassify g (dreap o s)).pending.length
        (dclassify g (dreap o s))).terminated := hl
    rw [admitLoop_terminated] at hl'
    exact hl'

theorem dinit_inv (g : Graph) : DInv g (dinit g) := by
  constructor
  · simp only [allLabels, dinit, List.append_nil]
    exact List.Perm.refl _
  · intro l hl
    rcases startedSet_cases hl with h1 | h1 | h1 <;> cases h1
  · intro l hl
    cases hl

theorem foldl_dstep_inv (g : Graph) (mc : Nat) (hnd : (g.map Prod.fst).Nodup) :
    ∀ (os : List Oracle) (s : DState), DInv g s →
      DInv g (os.foldl (fun s o => dstep g mc o s) s)
  | [], _, h => h
  | o :: os, s, h => foldl_dstep_inv g mc hnd os _ (dstep_inv g mc o s hnd h)

theorem drun_inv (g : Graph) (mc : Nat) (hnd : (g.map Prod.fst).Nodup)
    (os : List Oracle) : DInv g (drun g mc os) :=
  foldl_dstep_inv g mc hnd os (dinit g) (dinit_inv g)

theorem foldl_dstep_started_sup (g : Graph) (mc : Nat) :
    ∀ (os : List Oracle) (s : DState) (l : Label), l ∈ startedSet s →
      l ∈ startedSet (os.foldl (fun s o => dstep g mc o s) s)
  | [], _, _, h => h
  | o :: os, s, l, h =>
    foldl_dstep_started_sup g mc os _ l (dstep_started_sup g mc o s l h)

theorem drun_take_started (g : Graph) (mc : Nat) (os : List Oracle) (n : Nat)
    (l : Label) (h : l ∈ startedSet (drun g mc (os.take n))) :
    l ∈ startedSet (drun g mc os) := by
  have heq : drun g mc os =
      (os.drop n).foldl (fun s o => dstep g mc o s) (drun g mc (os.take n)) := by
    unfold drun
    conv_lhs => rw [← List.take_append_drop n os]
    rw [List.foldl_append]
  rw [heq]
  exact foldl_dstep_started_sup g mc (os.drop n) _ l h

/-- Claim C2: for every registered label `L` with dependency set `D`, under
the dependency-aware maintenance loop modelled from the spec: whenever
`L` has been started, every member of `D` is in `succeeded` (so `L` was
admitted only after all its dependencies ended `Successful`); and if
some member of `D` ends `Failed` or `Terminated`, then once the run
drains (no pending or in-flight labels remain) `L` is in `terminated`
with its record reading `Terminated`, and `L` was never started at any
earlier point of the run. -/
theorem dependency_order_guarantee (g : Graph) (mc : Nat)
    (hnd : (g.map Prod.fst).Nodup) (os : List Oracle) (L : Label) (D : List Label)
    (hL : depsOf g L = D) (hreg : L ∈ g.map Prod.fst) :
    (L ∈ startedSet (drun g mc os) → ∀ d ∈ D, d ∈ (drun g mc os).succeeded) ∧
    ((drun g mc os).pending = [] → (drun g mc os).inFlight = [] →
      ∀ d ∈ D, (d ∈ (drun g mc os).failed ∨ d ∈ (drun g mc os).terminated) →
      L ∈ (drun g mc os).terminated ∧
      (drun g mc os).status L = some Status.Terminated ∧
      ∀ n, L ∉ startedSet (drun g mc (os.take n))) := by
  have hinv := drun_inv g mc hnd os
  constructor
  · intro hst d hd
    exact hinv.deps_ok L hst d (hL ▸ hd)
  · intro hp hif d hd hdf
    have hndall : (allLabels (drun g mc os)).Nodup := hinv.perm.nodup_iff.mpr hnd
    have hLall : L ∈ allLabels (drun g mc os) := hinv.perm.mem_iff.mpr hreg
    have hdmem : L ∈ startedSet (drun g mc os) → False := by
      intro hst
      have hds := hinv.deps_ok L hst d (hL ▸ hd)
      have h1 := List.count_pos_iff.mpr hds
      have hcnt := nodup_parts_count hndall d
      rcases hdf with h2 | h2
      · have h3 := List.count_pos_iff.mpr h2
        omega
      · have h3 := List.count_pos_iff.mpr h2
        omega
    have hLterm : L ∈ (drun g mc os).terminated := by
      rcases List.mem_append.mp hLall with h1 | h1
      · rcases List.mem_append.mp h1 with h2 | h2
        · rcases List.mem_append.mp h2 with h3 | h3
          · rcases List.mem_append.mp h3 with h4 | h4
            · rw [hp] at h4
              cases h4
            · rw [hif] at h4
              cases h4
          · exact absurd (mem_startedSet_succeeded h3) hdmem
        · exact absurd (mem_startedSet_failed h2) hdmem
      · exact h1
    refine ⟨hLterm, hinv.term_status L hLterm, ?_⟩
    intro n hstn
    exact hdmem (drun_take_started g mc os n L hstn)

/-- The two-label dependency graph of the `A → B` failure-skip test
scenario. -/
def wgraph : Graph := [(Label.str "A", []), (Label.str "B", [Label.str "A"])]

/-- The completion behaviour in which `A`'s unit fails and nothing else
ever finishes. -/
def woracle : Oracle := fun l => if l = Label.str "A" then some false else none

/-- Claim C2 witness: in the concrete `A → B` run where `A` fails, the drained
run leaves `B` terminated with a `Terminated` record and `B` was never
started. -/
theorem dependency_order_guarantee_witness :
    Label.str "B" ∈ (drun wgraph 1 [woracle, woracle]).terminated ∧
    (drun wgraph 1 [woracle, woracle]).status (Label.str "B") =
      some Status.Terminated ∧
    ∀ n, Label.str "B" ∉ startedSet (drun wgraph 1 ([woracle, woracle].take n)) :=
  (dependency_order_guarantee wgraph 1 (by decide) [woracle, woracle]
    (Label.str "B") [Label.str "A"] (by decide) (by decide)).2
    (by decide) (by decide) (Label.str "A") (by decide) (Or.inl (by decide))

end Concurra
